import Mathlib

/-!
Verification development for the PyRush HTTP load generator.

This file gives a shallow embedding of the parts of the source relevant to
the frozen claims:

* `src/pyrush/models.py`   — the `RequestResult` record.
* `src/pyrush/requestor.py` — `make_request` (assertion evaluation, error
  capture) and `worker` (queue loop, round-robin URL selection, task_done
  acknowledgement).
* `src/pyrush/core.py`     — `StressTester.generate_statistics` (counts,
  status-code distribution, percentiles, standard deviation).

Response times are modelled as rationals.  The effectful boundary of the
HTTP layer is modelled as an oracle value (`HttpOutcome`): a request either
produced a response (status, body, elapsed time), raised an exception with
a message, or failed while opening a form file.  Decoding of the response
body (Python `bytes.decode(errors="ignore")`) is abstracted: bodies appear
here already decoded, as lists of characters.  Numeric formatting inside
Python error-message strings is abstracted where irrelevant to the claims.
-/

/-- Embedding of `models.RequestResult`: the per-request record produced by
`requestor.make_request`.  Field defaults mirror the Python dataclass. -/
structure RequestResult where
  url : String
  method : String
  status_code : ℕ
  response_time : ℚ
  timestamp : ℚ
  error : Option String := none
  response_size : ℕ := 0
deriving DecidableEq

/-- The assertion settings carried on the `StressTester` instance
(`assert_status`, `assert_body_contains`, `assert_max_rt`).
`assert_body_contains` is a decoded string (list of characters); Python
treats the empty string as "no assertion" (falsy), which the evaluation
function reproduces. -/
structure AssertCfg where
  assert_status : Option ℕ
  assert_body_contains : Option (List Char)
  assert_max_rt : Option ℚ
deriving DecidableEq

/-- Outcome of the HTTP layer for one request, the effectful boundary of
`make_request`: a response was obtained (status, decoded body, elapsed
time), or an exception was raised while making the request (message,
elapsed time), or a form file could not be opened (early-return path). -/
inductive HttpOutcome where
  | success (status : ℕ) (body : List Char) (rtime : ℚ)
  | failure (msg : String) (rtime : ℚ)
  | fileError (msg : String)
deriving DecidableEq

/-- Substring containment, the Python `in` test on strings. -/
def containsSub (needle : List Char) : List Char → Bool
  | [] => needle.isEmpty
  | c :: rest => needle.isPrefixOf (c :: rest) || containsSub needle rest

/-- Message of a failed status assertion
(`f"Assert status {expected} failed (got {got})"`). -/
def assertStatusMsg (expected got : ℕ) : String :=
  "Assert status " ++ toString expected ++ " failed (got " ++ toString got ++ ")"

/-- Message of a failed body assertion
(`f"Assert body contains {sub} failed"`; quoting abstracted). -/
def assertBodyMsg (sub : List Char) : String :=
  "Assert body contains " ++ String.mk sub ++ " failed"

/-- Message of a failed max-response-time assertion (numeric rendering of
the two times abstracted away; no claim depends on it). -/
def assertMaxRtMsg : String :=
  "Assert max response time failed"

/-- The three sequential assertion checks of `make_request` (requestor.py
lines 98-113).  Each failing check assigns `error`, overwriting whatever a
previous check assigned; a passing check leaves `error` unchanged. -/
def evalAssertions (cfg : AssertCfg) (status : ℕ) (body : List Char) (rtime : ℚ) :
    Option String :=
  let e1 : Option String :=
    match cfg.assert_status with
    | some s => if status ≠ s then some (assertStatusMsg s status) else none
    | none => none
  let e2 : Option String :=
    match cfg.assert_body_contains with
    | some sub =>
        if sub.isEmpty || containsSub sub body then e1 else some (assertBodyMsg sub)
    | none => e1
  match cfg.assert_max_rt with
  | some m => if m < rtime then some assertMaxRtMsg else e2
  | none => e2

/-- Embedding of `requestor.make_request` as a function of the HTTP-layer
outcome.  Every outcome yields a `RequestResult`; no path raises.  On an
exception the record carries `status_code = 0`, the stringified error and
`response_size = 0`; on the form-file early return additionally
`response_time = 0`; on a response the actual status and full body size
are recorded and the error field is whatever the assertions produced. -/
def make_request (cfg : AssertCfg) (url method : String) (ts : ℚ) :
    HttpOutcome → RequestResult
  | HttpOutcome.fileError msg =>
      { url := url, method := method, status_code := 0, response_time := 0,
        timestamp := ts, error := some ("File error: " ++ msg) }
  | HttpOutcome.failure msg rtime =>
      { url := url, method := method, status_code := 0, response_time := rtime,
        timestamp := ts, error := some msg }
  | HttpOutcome.success status body rtime =>
      { url := url, method := method, status_code := status,
        response_time := rtime, timestamp := ts,
        error := evalAssertions cfg status body rtime,
        response_size := body.length }

/-- Round-robin index used by the worker: `request_id % len(urls)`. -/
def chosenIndex (urls : List String) (request_id : ℕ) : ℕ :=
  request_id % urls.length

/-- URL selected by the worker for a request ID:
`urls[request_id % url_count]` (requestor.py line 173). -/
def urlForId (urls : List String) (request_id : ℕ) : String :=
  urls.getD (chosenIndex urls request_id) ""

/-- One pull from the dispatcher queue as the worker observes it: a request
ID, the `None` stop marker, or expiry of the 1-second wait
(`asyncio.TimeoutError`). -/
inductive Pull where
  | id (n : ℕ)
  | stop
  | timeout
deriving DecidableEq

/-- Embedding of the loop of `requestor.worker` over a trace of queue pulls.
Returns the list of results appended (in order) and the number of
`task_done` acknowledgements issued.  The `finally` block runs `task_done`
once per loop iteration entered — including the iteration that observed
the stop marker or the timeout, where no ID was pulled (any resulting
exception from the queue is swallowed).  Rate-limit pacing, the shared
lock and the progress callback have no effect on the computed values and
are not modelled. -/
def runWorker (cfg : AssertCfg) (urls : List String) (method : String)
    (oracle : ℕ → HttpOutcome) (tsOf : ℕ → ℚ) : List Pull → List RequestResult × ℕ
  | [] => ([], 0)
  | Pull.stop :: _ => ([], 1)
  | Pull.timeout :: _ => ([], 1)
  | Pull.id n :: rest =>
      let r := make_request cfg (urlForId urls n) method (tsOf n) (oracle n)
      let pr := runWorker cfg urls method oracle tsOf rest
      (r :: pr.1, pr.2 + 1)

/-- C3: every error arising while making a request is captured in the
returned `RequestResult` (`status_code = 0`, error message stored), never
raised to the worker loop, and a worker that pulls the IDs `ids` before
observing the stop marker appends exactly one result per pulled ID, in
pull order, with no retries — the result for ID `n` being exactly
`make_request` applied to the URL and outcome of `n`. -/
theorem c3_one_result_per_id (cfg : AssertCfg) (urls : List String)
    (method url msg : String) (oracle : ℕ → HttpOutcome) (tsOf : ℕ → ℚ)
    (ids : List ℕ) (rest : List Pull) (ts rtime : ℚ) :
    (make_request cfg url method ts (HttpOutcome.failure msg rtime)).status_code = 0
    ∧ (make_request cfg url method ts (HttpOutcome.failure msg rtime)).error = some msg
    ∧ (runWorker cfg urls method oracle tsOf (ids.map Pull.id ++ Pull.stop :: rest)).1
        = ids.map (fun n => make_request cfg (urlForId urls n) method (tsOf n) (oracle n)) := by
  refine ⟨rfl, rfl, ?_⟩
  induction ids with
  | nil => rfl
  | cons n ns ih => simp [runWorker, ih]

/-- C10: a worker whose wait on the queue times out after processing the
IDs `ids` exits its loop at once (whatever would have come later on the
queue is never touched), having appended one result per pulled ID, and the
`finally` block still issues a `task_done` acknowledgement for the timed-out
iteration: the acknowledgement count is one more than the number of IDs
pulled. -/
theorem c10_timeout_ack (cfg : AssertCfg) (urls : List String) (method : String)
    (oracle : ℕ → HttpOutcome) (tsOf : ℕ → ℚ) (ids : List ℕ) (rest : List Pull) :
    runWorker cfg urls method oracle tsOf (ids.map Pull.id ++ Pull.timeout :: rest)
      = (ids.map (fun n => make_request cfg (urlForId urls n) method (tsOf n) (oracle n)),
         ids.length + 1) := by
  induction ids with
  | nil => rfl
  | cons n ns ih => simp [runWorker, ih]

/-- Results with `error is None` (`successful_requests`, core.py line 237). -/
def successful_requests (rs : List RequestResult) : List RequestResult :=
  rs.filter (fun r => r.error.isNone)

/-- Results with `error is not None` (`failed_requests`, core.py line 238). -/
def failed_requests (rs : List RequestResult) : List RequestResult :=
  rs.filter (fun r => r.error.isSome)

/-- One step of building the Python dict:
`status_codes[k] = status_codes.get(k, 0) + 1`. -/
def updateDist : List (ℕ × ℕ) → ℕ → List (ℕ × ℕ)
  | [], k => [(k, 1)]
  | (a, v) :: rest, k =>
      if a = k then (a, v + 1) :: rest else (a, v) :: updateDist rest k

/-- `status_code_distribution` (core.py lines 269-273): a dict built by
iterating over the successful (error-is-None) results only. -/
def status_code_distribution (rs : List RequestResult) : List (ℕ × ℕ) :=
  (successful_requests rs).foldl (fun d r => updateDist d r.status_code) []

/-- Sum of the counts stored in the distribution dict. -/
def sumValues (d : List (ℕ × ℕ)) : ℕ :=
  (d.map (fun p => p.2)).sum

/-- Dict lookup with default 0 (`status_codes.get(k, 0)`). -/
def lookupD : List (ℕ × ℕ) → ℕ → ℕ
  | [], _ => 0
  | (a, v) :: rest, k => if a = k then v else lookupD rest k

lemma sumValues_updateDist (d : List (ℕ × ℕ)) (k : ℕ) :
    sumValues (updateDist d k) = sumValues d + 1 := by
  induction d with
  | nil => rfl
  | cons p rest ih =>
      obtain ⟨a, v⟩ := p
      by_cases h : a = k <;> simp [updateDist, h, sumValues] at ih ⊢ <;> omega

lemma sumValues_fold (l : List RequestResult) :
    ∀ d : List (ℕ × ℕ),
      sumValues (l.foldl (fun d r => updateDist d r.status_code) d)
        = sumValues d + l.length := by
  induction l with
  | nil => intro d; simp
  | cons r t ih =>
      intro d
      simp only [List.foldl_cons, ih, sumValues_updateDist, List.length_cons]
      omega

lemma lookupD_updateDist (d : List (ℕ × ℕ)) (k c : ℕ) :
    lookupD (updateDist d k) c = lookupD d c + (if c = k then 1 else 0) := by
  induction d with
  | nil =>
      simp only [updateDist, lookupD]
      split_ifs <;> omega
  | cons p rest ih =>
      obtain ⟨a, v⟩ := p
      by_cases hak : a = k
      · simp only [updateDist, if_pos hak, lookupD]
        split_ifs <;> omega
      · simp only [updateDist, if_neg hak, lookupD]
        rw [ih]
        split_ifs <;> omega

lemma lookupD_fold (l : List RequestResult) (c : ℕ) :
    ∀ d : List (ℕ × ℕ),
      lookupD (l.foldl (fun d r => updateDist d r.status_code) d) c
        = lookupD d c + l.countP (fun r => r.status_code = c) := by
  induction l with
  | nil => intro d; simp
  | cons r t ih =>
      intro d
      simp only [List.foldl_cons, ih, lookupD_updateDist, List.countP_cons,
        decide_eq_true_eq]
      split_ifs <;> omega

/-- C6: the counts partition the results — a result is counted successful
exactly when its error is `none` and failed exactly when it is `some`,
`successful + failed = total`, and the values of the status-code
distribution sum to the number of successful results, hence to at most the
total. -/
theorem c6_counts_partition (rs : List RequestResult) :
    (successful_requests rs).length = rs.countP (fun r => r.error.isNone)
    ∧ (failed_requests rs).length = rs.countP (fun r => r.error.isSome)
    ∧ (successful_requests rs).length + (failed_requests rs).length = rs.length
    ∧ sumValues (status_code_distribution rs) ≤ rs.length := by
  refine ⟨(List.countP_eq_length_filter _ _).symm,
          (List.countP_eq_length_filter _ _).symm, ?_, ?_⟩
  · induction rs with
    | nil => rfl
    | cons r t ih =>
        cases h : r.error <;>
          simp [successful_requests, failed_requests, List.filter, h] at ih ⊢ <;>
          omega
  · have h := sumValues_fold (successful_requests rs) []
    simp only [status_code_distribution, h]
    have : (successful_requests rs).length ≤ rs.length :=
      List.length_filter_le _ _
    simpa [sumValues] using this

/-- C4 (amended): the status-code distribution counts exactly the results
whose error field is `none`; a result whose assertions failed carries a
real status code but a non-`none` error, so it is not counted. -/
theorem c4_distribution_successful_only (rs : List RequestResult) (c : ℕ) :
    lookupD (status_code_distribution rs) c
      = rs.countP (fun r => decide (r.status_code = c) && r.error.isNone) := by
  have h := lookupD_fold (successful_requests rs) c []
  simp only [status_code_distribution, h]
  have : lookupD [] c = 0 := rfl
  rw [this, Nat.zero_add, successful_requests, List.countP_filter]

/-- A result whose only failure is an assertion: real status code 500,
error set by the status assertion (requestor.py lines 99-101, 123-131). -/
def assertFailedResult : RequestResult :=
  make_request ⟨some 200, none, none⟩ "u" "GET" 0 (HttpOutcome.success 500 [] 1)

/-- C4 counterexample: `assertFailedResult` received a response
(status code 500) and its error is non-`none` (an assertion failure), yet
the status-code distribution of the run `[assertFailedResult]` is empty —
the result contributes nothing, contradicting the claim that it still
contributes its status code. -/
theorem c4_counterexample :
    assertFailedResult.status_code = 500
    ∧ assertFailedResult.error ≠ none
    ∧ status_code_distribution [assertFailedResult] = []
    ∧ lookupD (status_code_distribution [assertFailedResult]) 500 = 0 := by
  refine ⟨rfl, ?_, rfl, rfl⟩
  decide

/-- The status assertion is set and the actual status differs. -/
def statusFails (cfg : AssertCfg) (status : ℕ) : Prop :=
  ∃ s, cfg.assert_status = some s ∧ status ≠ s

/-- The body assertion is set (to a non-empty, hence truthy, string) and the
decoded body does not contain it. -/
def bodyFails (cfg : AssertCfg) (body : List Char) : Prop :=
  ∃ sub, cfg.assert_body_contains = some sub ∧ sub.isEmpty = false
    ∧ containsSub sub body = false

/-- The max-response-time assertion is set and the response time exceeds it. -/
def maxRtFails (cfg : AssertCfg) (rtime : ℚ) : Prop :=
  ∃ m, cfg.assert_max_rt = some m ∧ m < rtime

lemma evalAssertions_spec (cfg : AssertCfg) (status : ℕ) (body : List Char)
    (rtime : ℚ) :
    (maxRtFails cfg rtime → evalAssertions cfg status body rtime = some assertMaxRtMsg)
    ∧ (¬ maxRtFails cfg rtime → bodyFails cfg body →
        ∃ sub, cfg.assert_body_contains = some sub
          ∧ evalAssertions cfg status body rtime = some (assertBodyMsg sub))
    ∧ (¬ maxRtFails cfg rtime → ¬ bodyFails cfg body → statusFails cfg status →
        ∃ s, cfg.assert_status = some s
          ∧ evalAssertions cfg status body rtime = some (assertStatusMsg s status))
    ∧ (¬ maxRtFails cfg rtime → ¬ bodyFails cfg body → ¬ statusFails cfg status →
        evalAssertions cfg status body rtime = none) := by
  obtain ⟨os, ob, om⟩ := cfg
  refine ⟨?_, ?_, ?_, ?_⟩
  · rintro ⟨m, hm, hlt⟩
    cases hm
    simp [evalAssertions, if_pos hlt]
  · intro hnm
    rintro ⟨sub, hsub, hne, hnc⟩
    cases hsub
    refine ⟨sub, rfl, ?_⟩
    have hm : ∀ x, om = some x → ¬ x < rtime := by
      intro x hx hlt
      exact hnm ⟨x, hx, hlt⟩
    cases om with
    | none => simp [evalAssertions, maxRtFails, hne, hnc]
    | some m => simp [evalAssertions, maxRtFails, hne, hnc, hm m rfl]
  · intro hnm hnb
    rintro ⟨s, hs, hne⟩
    cases hs
    refine ⟨s, rfl, ?_⟩
    have hm : ∀ x, om = some x → ¬ x < rtime := fun x hx hlt => hnm ⟨x, hx, hlt⟩
    have hb : ∀ sub, ob = some sub → sub.isEmpty = false → containsSub sub body = true := by
      intro sub hsub hemp
      rcases hcs : containsSub sub body with _ | _
      · exact absurd ⟨sub, hsub, hemp, hcs⟩ hnb
      · rfl
    cases om with
    | none =>
        cases ob with
        | none => simp [evalAssertions, hne]
        | some sub =>
            rcases hemp : sub.isEmpty with _ | _
            · simp [evalAssertions, hne, hemp, hb sub rfl hemp]
            · simp [evalAssertions, hne, hemp]
    | some m =>
        cases ob with
        | none => simp [evalAssertions, hne, hm m rfl]
        | some sub =>
            rcases hemp : sub.isEmpty with _ | _
            · simp [evalAssertions, hne, hemp, hb sub rfl hemp, hm m rfl]
            · simp [evalAssertions, hne, hemp, hm m rfl]
  · intro hnm hnb hns
    have hm : ∀ x, om = some x → ¬ x < rtime := fun x hx hlt => hnm ⟨x, hx, hlt⟩
    have hb : ∀ sub, ob = some sub → sub.isEmpty = false → containsSub sub body = true := by
      intro sub hsub hemp
      rcases hcs : containsSub sub body with _ | _
      · exact absurd ⟨sub, hsub, hemp, hcs⟩ hnb
      · rfl
    have hs : ∀ s, os = some s → status = s := by
      intro s hs0
      by_contra hne
      exact hns ⟨s, hs0, hne⟩
    cases om with
    | none =>
        cases ob with
        | none =>
            cases os with
            | none => simp [evalAssertions]
            | some s => simp [evalAssertions, hs s rfl]
        | some sub =>
            rcases hemp : sub.isEmpty with _ | _
            · cases os with
              | none => simp [evalAssertions, hemp, hb sub rfl hemp]
              | some s => simp [evalAssertions, hemp, hb sub rfl hemp, hs s rfl]
            · cases os with
              | none => simp [evalAssertions, hemp]
              | some s => simp [evalAssertions, hemp, hs s rfl]
    | some m =>
        cases ob with
        | none =>
            cases os with
            | none => simp [evalAssertions, hm m rfl]
            | some s => simp [evalAssertions, hm m rfl, hs s rfl]
        | some sub =>
            rcases hemp : sub.isEmpty with _ | _
            · cases os with
              | none => simp [evalAssertions, hemp, hb sub rfl hemp, hm m rfl]
              | some s => simp [evalAssertions, hemp, hb sub rfl hemp, hm m rfl, hs s rfl]
            · cases os with
              | none => simp [evalAssertions, hemp, hm m rfl]
              | some s => simp [evalAssertions, hemp, hm m rfl, hs s rfl]

/-- C7 (amended): assertion evaluation runs the three checks in order
(status, body containment on the decoded body, max response time), and a
later failing check overwrites the error of an earlier one, so the result
carries the kind of the LAST failing check: the max-RT kind whenever that
check fails; otherwise the body kind whenever that check fails; otherwise
the status kind whenever that check fails; and no error when no set check
fails.  In every case the real status code is recorded in the result. -/
theorem c7_assertion_order (cfg : AssertCfg) (url method : String) (ts : ℚ)
    (status : ℕ) (body : List Char) (rtime : ℚ) :
    (make_request cfg url method ts (HttpOutcome.success status body rtime)).status_code
        = status
    ∧ (maxRtFails cfg rtime →
        (make_request cfg url method ts (HttpOutcome.success status body rtime)).error
          = some assertMaxRtMsg)
    ∧ (¬ maxRtFails cfg rtime → bodyFails cfg body →
        ∃ sub, cfg.assert_body_contains = some sub
          ∧ (make_request cfg url method ts (HttpOutcome.success status body rtime)).error
              = some (assertBodyMsg sub))
    ∧ (¬ maxRtFails cfg rtime → ¬ bodyFails cfg body → statusFails cfg status →
        ∃ s, cfg.assert_status = some s
          ∧ (make_request cfg url method ts (HttpOutcome.success status body rtime)).error
              = some (assertStatusMsg s status))
    ∧ (¬ maxRtFails cfg rtime → ¬ bodyFails cfg body → ¬ statusFails cfg status →
        (make_request cfg url method ts (HttpOutcome.success status body rtime)).error
          = none) := by
  have h := evalAssertions_spec cfg status body rtime
  exact ⟨rfl, h.1, h.2.1, h.2.2.1, h.2.2.2⟩

/-- C7 witness: with only the max-RT assertion set (1 second) and a
response taking 2, the theorem yields the max-RT error on the result. -/
theorem c7_assertion_order_witness :
    (make_request ⟨none, none, some 1⟩ "u" "GET" 0
        (HttpOutcome.success 200 [] 2)).error = some assertMaxRtMsg :=
  (c7_assertion_order ⟨none, none, some 1⟩ "u" "GET" 0 200 [] 2).2.1
    ⟨1, rfl, by norm_num⟩

/-- C7 counterexample: with `assert_status = 200` and
`assert_body_contains = "xyz"` both set, a response with status 500 whose
body is "a" fails BOTH assertions; the claim says such a result carries the
`AssertStatus` kind, but the later body check in the code overwrites the status
error, so the result carries the body-assertion message instead. -/
theorem c7_counterexample :
    statusFails ⟨some 200, some ("xyz".toList), none⟩ 500
    ∧ (make_request ⟨some 200, some ("xyz".toList), none⟩ "u" "GET" 0
          (HttpOutcome.success 500 ("a".toList) 1)).error
        = some (assertBodyMsg ("xyz".toList))
    ∧ assertBodyMsg ("xyz".toList) ≠ assertStatusMsg 200 500 := by
  refine ⟨⟨200, rfl, by decide⟩, ?_, ?_⟩
  · decide
  · decide

/-- C8 (amended): `response_size` is 0 exactly on the paths that obtained
no response — the exception path and the form-file early return, both of
which also set `status_code = 0` — while a result built from an actual
response records the full body size even when an assertion failure makes
its error field non-`none`. -/
theorem c8_response_size (cfg : AssertCfg) (url method msg : String)
    (ts rtime : ℚ) (status : ℕ) (body : List Char) :
    (make_request cfg url method ts (HttpOutcome.failure msg rtime)).response_size = 0
    ∧ (make_request cfg url method ts (HttpOutcome.failure msg rtime)).status_code = 0
    ∧ (make_request cfg url method ts (HttpOutcome.fileError msg)).response_size = 0
    ∧ (make_request cfg url method ts (HttpOutcome.fileError msg)).status_code = 0
    ∧ (make_request cfg url method ts (HttpOutcome.success status body rtime)).response_size
        = body.length :=
  ⟨rfl, rfl, rfl, rfl, rfl⟩

/-- C8 counterexample: a response with body "abc" that fails the status
assertion yields a result with a non-`none` error but `response_size = 3`,
not 0 as the claim requires. -/
theorem c8_counterexample :
    (make_request ⟨some 200, none, none⟩ "u" "GET" 0
        (HttpOutcome.success 500 ("abc".toList) 1)).error ≠ none
    ∧ (make_request ⟨some 200, none, none⟩ "u" "GET" 0
        (HttpOutcome.success 500 ("abc".toList) 1)).response_size = 3 := by
  refine ⟨?_, rfl⟩
  decide

lemma div_mod_succ (K N : ℕ) (hK : 0 < K) :
    ((N + 1) / K = N / K ∧ (N + 1) % K = N % K + 1 ∧ N % K + 1 < K)
    ∨ ((N + 1) / K = N / K + 1 ∧ (N + 1) % K = 0 ∧ N % K + 1 = K) := by
  have hdm := Nat.div_add_mod N K
  have hr : N % K < K := Nat.mod_lt _ hK
  rcases Nat.lt_or_ge (N % K + 1) K with h | h
  · left
    have h1 : N + 1 = K * (N / K) + (N % K + 1) := by omega
    refine ⟨?_, ?_, h⟩
    · rw [h1, Nat.mul_add_div hK, Nat.div_eq_of_lt h]
      omega
    · rw [h1, Nat.mul_add_mod, Nat.mod_eq_of_lt h]
  · right
    have hKe : N % K + 1 = K := by omega
    have hms : K * (N / K + 1) = K * (N / K) + K := Nat.mul_succ K (N / K)
    have h1 : N + 1 = K * (N / K + 1) := by omega
    refine ⟨?_, ?_, hKe⟩
    · rw [h1, Nat.mul_div_cancel_left _ hK]
    · rw [h1, Nat.mul_mod_right]

lemma countResidue (K j : ℕ) (hK : 0 < K) (hj : j < K) (N : ℕ) :
    (List.range N).countP (fun n => n % K = j)
      = N / K + (if j < N % K then 1 else 0) := by
  induction N with
  | zero => simp
  | succ N ih =>
      rw [List.range_succ, List.countP_append, ih]
      simp only [List.countP_cons, List.countP_nil, decide_eq_true_eq]
      rcases div_mod_succ K N hK with ⟨h1, h2, h3⟩ | ⟨h1, h2, h3⟩ <;> rw [h1, h2] <;>
        split_ifs <;> omega

/-- C5: for any list of request IDs that is a permutation of `0 … N-1`
(i.e. however the IDs of the Dispatcher interleave across workers), the number
of IDs whose round-robin index `chosenIndex` equals a given URL position
`j < K` is either `⌊N/K⌋` or `⌈N/K⌉` (the latter written `(N+K-1)/K` in
natural division). -/
theorem c5_round_robin (urls : List String) (K N j : ℕ) (ids : List ℕ)
    (hlen : urls.length = K) (hK : 0 < K) (hj : j < K)
    (hperm : ids.Perm (List.range N)) :
    ids.countP (fun n => chosenIndex urls n = j) = N / K
    ∨ ids.countP (fun n => chosenIndex urls n = j) = (N + K - 1) / K := by
  have hc : ids.countP (fun n => chosenIndex urls n = j)
      = (List.range N).countP (fun n => n % K = j) := by
    rw [hperm.countP_eq]
    simp only [chosenIndex, hlen]
  rw [hc, countResidue K j hK hj N]
  by_cases h : j < N % K
  · right
    rw [if_pos h]
    have hdm := Nat.div_add_mod N K
    have hr : N % K < K := Nat.mod_lt _ hK
    have hms : K * (N / K + 1) = K * (N / K) + K := Nat.mul_succ K (N / K)
    have h1 : N + K - 1 = K * (N / K + 1) + (N % K - 1) := by omega
    rw [h1, Nat.mul_add_div hK, Nat.div_eq_of_lt (by omega : N % K - 1 < K)]
  · left
    rw [if_neg h]
    omega

/-- C5 witness: two URLs, five IDs in dispatcher order; URL index 1
receives `⌊5/2⌋ = 2` attempts. -/
theorem c5_round_robin_witness :
    (List.range 5).countP (fun n => chosenIndex ["a", "b"] n = 1) = 5 / 2
    ∨ (List.range 5).countP (fun n => chosenIndex ["a", "b"] n = 1) = (5 + 2 - 1) / 2 :=
  c5_round_robin ["a", "b"] 2 5 1 (List.range 5) rfl (by decide) (by decide)
    (List.Perm.refl _)

/-- Python `min` over a non-empty list (0 for the empty list, which the
guard `if response_times:` rules out in the source). -/
def listMin : List ℚ → ℚ
  | [] => 0
  | x :: xs => xs.foldl min x

/-- Python `max` over a non-empty list. -/
def listMax : List ℚ → ℚ
  | [] => 0
  | x :: xs => xs.foldl max x

/-- The sorting performed inside `statistics.quantiles`
(`data = sorted(data)`). -/
def sortedOf (l : List ℚ) : List ℚ := List.insertionSort (· ≤ ·) l

/-- Cut point `i` of `n` of Python `statistics.quantiles` with its default
`method="exclusive"`, computed on an already-sorted sample `d`:
`m = ld + 1; j, delta = divmod(i*m, n); j` clamped to `[1, ld-1]`;
`(d[j-1]*(n-delta) + d[j]*delta) / n`. -/
def cutPoint (d : List ℚ) (n i : ℕ) : ℚ :=
  let ld := d.length
  let m := ld + 1
  let j0 := i * m / n
  let j := if j0 < 1 then 1 else if ld - 1 < j0 then ld - 1 else j0
  (d.getD (j - 1) 0 * ((n : ℚ) - ((i * m % n : ℕ) : ℚ))
      + d.getD j 0 * ((i * m % n : ℕ) : ℚ)) / (n : ℚ)

/-- `statistics.quantiles(data, n=n)[i-1]`: sort, then take cut point `i`.
The source calls this with its default method, which is `"exclusive"`. -/
def quantilesExc (data : List ℚ) (n i : ℕ) : ℚ :=
  cutPoint (sortedOf data) n i

/-- Modelled from the spec: the linear-interpolation `"inclusive"` method
the spec names (cut point `i` of `n` on the sorted sample, positions
spaced over `ld - 1`), for comparison with what the code computes. -/
def quantilesIncl (data : List ℚ) (n i : ℕ) : ℚ :=
  let d := sortedOf data
  let m := d.length - 1
  let j := i * m / n
  (d.getD j 0 * ((n : ℚ) - ((i * m % n : ℕ) : ℚ))
      + d.getD (j + 1) 0 * ((i * m % n : ℕ) : ℚ)) / (n : ℚ)

/-- `min(response_times)` (core.py line 256). -/
def min_response_time (rt : List ℚ) : ℚ := listMin rt

/-- `max(response_times)` (core.py line 257). -/
def max_response_time (rt : List ℚ) : ℚ := listMax rt

/-- `p25_response_time` (core.py line 261):
`statistics.quantiles(rt, n=4)[0] if len(rt) > 3 else rt[0]`.  The
fallback is the FIRST element of the unsorted list. -/
def p25_response_time (rt : List ℚ) : ℚ :=
  if 3 < rt.length then quantilesExc rt 4 1 else rt.getD 0 0

/-- `p50_response_time` (core.py line 262):
`statistics.quantiles(rt, n=2)[0] if len(rt) > 1 else rt[0]`. -/
def p50_response_time (rt : List ℚ) : ℚ :=
  if 1 < rt.length then quantilesExc rt 2 1 else rt.getD 0 0

/-- `p75_response_time` (core.py line 263):
`statistics.quantiles(rt, n=4)[2] if len(rt) > 3 else rt[-1]`.  The
fallback is the LAST element of the unsorted list. -/
def p75_response_time (rt : List ℚ) : ℚ :=
  if 3 < rt.length then quantilesExc rt 4 3 else (rt.getLast?).getD 0

/-- `p90_response_time` (core.py line 264):
`statistics.quantiles(rt, n=10)[8] if len(rt) > 9 else max(rt)`. -/
def p90_response_time (rt : List ℚ) : ℚ :=
  if 9 < rt.length then quantilesExc rt 10 9 else listMax rt

/-- `p95_response_time` (core.py line 265):
`statistics.quantiles(rt, n=20)[18] if len(rt) > 19 else max(rt)`. -/
def p95_response_time (rt : List ℚ) : ℚ :=
  if 19 < rt.length then quantilesExc rt 20 19 else listMax rt

/-- `p99_response_time` (core.py line 266):
`statistics.quantiles(rt, n=100)[98] if len(rt) > 99 else max(rt)`. -/
def p99_response_time (rt : List ℚ) : ℚ :=
  if 99 < rt.length then quantilesExc rt 100 99 else listMax rt

/-- Plain linear interpolation on a sorted sample at position `x` (the
sample being indexed from 1 in the percentile convention): the value
`d[⌊x⌋-1] + (x-⌊x⌋)·(d[⌊x⌋]-d[⌊x⌋-1])`. -/
def interpAt (d : List ℚ) (x : ℚ) : ℚ :=
  let j : ℕ := (Int.floor x).toNat
  d.getD (j - 1) 0 + (x - (j : ℚ)) * (d.getD j 0 - d.getD (j - 1) 0)

/-- C1 counterexample: on the sample `[1,2,3,4]` the code computes
P25 = 5/4 while the inclusive method named by the spec gives 7/4, so the claimed
method is not the one used; and on the two-sample run `[5,1]` the claimed
fallback to the minimum fails: the code returns the first appended value 5,
not the minimum 1. -/
theorem c1_counterexample :
    p25_response_time [1, 2, 3, 4] = 5 / 4
    ∧ quantilesIncl [1, 2, 3, 4] 4 1 = 7 / 4
    ∧ p25_response_time [5, 1] = 5
    ∧ listMin [5, 1] = 1 := by
  refine ⟨?_, ?_, ?_, ?_⟩ <;>
    norm_num [p25_response_time, quantilesExc, quantilesIncl, cutPoint, sortedOf,
      listMin, List.insertionSort, List.orderedInsert]

/-- C2 counterexample: appending the successful response times in the
order `[7, 1]` gives `p25 = 7 > 4 = p50`, violating the claimed
monotonicity for that appending order. -/
theorem c2_counterexample :
    p25_response_time [7, 1] = 7
    ∧ p50_response_time [7, 1] = 4
    ∧ ¬ p25_response_time [7, 1] ≤ p50_response_time [7, 1] := by
  refine ⟨?_, ?_, ?_⟩ <;>
    norm_num [p25_response_time, p50_response_time, quantilesExc, cutPoint, sortedOf,
      List.insertionSort, List.orderedInsert]

lemma getD_mono_sorted {d : List ℚ} (hd : List.Sorted (· ≤ ·) d) {a b : ℕ}
    (hab : a ≤ b) (hb : b < d.length) : d.getD a 0 ≤ d.getD b 0 := by
  have ha : a < d.length := lt_of_le_of_lt hab hb
  rw [List.getD_eq_getElem?_getD, List.getD_eq_getElem?_getD,
    List.getElem?_eq_getElem ha, List.getElem?_eq_getElem hb]
  simp only [Option.getD_some]
  rcases lt_or_eq_of_le hab with h | h
  · have := @List.Sorted.rel_get_of_lt ℚ (· ≤ ·) d hd ⟨a, ha⟩ ⟨b, hb⟩
      (Fin.mk_lt_mk.mpr h)
    simpa [List.get_eq_getElem] using this
  · subst h
    exact le_refl _

lemma foldl_min_sorted : ∀ (xs : List ℚ) (x : ℚ),
    List.Sorted (· ≤ ·) (x :: xs) → xs.foldl min x = x
  | [], _, _ => rfl
  | y :: ys, x, h => by
      have hxy : x ≤ y := (List.sorted_cons.mp h).1 y (by simp)
      have h2 : List.Sorted (· ≤ ·) (x :: ys) :=
        List.Pairwise.sublist (List.Sublist.cons₂ x (List.sublist_cons_self y ys)) h
      simp only [List.foldl_cons, min_eq_left hxy]
      exact foldl_min_sorted ys x h2

lemma foldl_max_sorted : ∀ (xs : List ℚ) (x : ℚ),
    List.Sorted (· ≤ ·) (x :: xs) → xs.foldl max x = (x :: xs).getLast?.getD 0
  | [], _, _ => rfl
  | y :: ys, x, h => by
      have hxy : x ≤ y := (List.sorted_cons.mp h).1 y (by simp)
      simp only [List.foldl_cons, max_eq_right hxy]
      rw [foldl_max_sorted ys y (List.sorted_cons.mp h).2, List.getLast?_cons_cons]

lemma listMin_sorted (l : List ℚ) (hs : List.Sorted (· ≤ ·) l) (hne : l ≠ []) :
    listMin l = l.getD 0 0 := by
  cases l with
  | nil => exact absurd rfl hne
  | cons x xs =>
      rw [List.getD_cons_zero]
      exact foldl_min_sorted xs x hs

lemma listMax_sorted (l : List ℚ) (hs : List.Sorted (· ≤ ·) l) (hne : l ≠ []) :
    listMax l = l.getLast?.getD 0 := by
  cases l with
  | nil => exact absurd rfl hne
  | cons x xs => exact foldl_max_sorted xs x hs

lemma getLast?_getD_eq (l : List ℚ) : l.getLast?.getD 0 = l.getD (l.length - 1) 0 := by
  rw [List.getLast?_eq_getElem?, List.getD_eq_getElem?_getD]

lemma cutPoint_no_clamp (d : List ℚ) (n i : ℕ) (hn : 0 < n)
    (h1 : 1 ≤ i * (d.length + 1) / n) (h2 : i * (d.length + 1) / n ≤ d.length - 1) :
    cutPoint d n i = interpAt d (((i * (d.length + 1) : ℕ) : ℚ) / (n : ℚ))
    ∧ Int.floor (((i * (d.length + 1) : ℕ) : ℚ) / (n : ℚ))
        = ((i * (d.length + 1) / n : ℕ) : ℤ) := by
  have hdm : n * (i * (d.length + 1) / n) + i * (d.length + 1) % n = i * (d.length + 1) :=
    Nat.div_add_mod _ n
  have hmlt : i * (d.length + 1) % n < n := Nat.mod_lt _ hn
  have hnq : (0 : ℚ) < (n : ℚ) := by exact_mod_cast hn
  have hAq : ((i * (d.length + 1) : ℕ) : ℚ)
      = (n : ℚ) * ((i * (d.length + 1) / n : ℕ) : ℚ)
        + ((i * (d.length + 1) % n : ℕ) : ℚ) := by
    exact_mod_cast hdm.symm
  have hδq : (0 : ℚ) ≤ ((i * (d.length + 1) % n : ℕ) : ℚ) := by positivity
  have hδlt : ((i * (d.length + 1) % n : ℕ) : ℚ) < (n : ℚ) := by exact_mod_cast hmlt
  have hfl : Int.floor (((i * (d.length + 1) : ℕ) : ℚ) / (n : ℚ))
      = ((i * (d.length + 1) / n : ℕ) : ℤ) := by
    rw [Int.floor_eq_iff]
    constructor
    · rw [le_div_iff hnq, hAq, Int.cast_natCast]
      nlinarith
    · rw [div_lt_iff hnq, hAq, Int.cast_natCast]
      nlinarith
  refine ⟨?_, hfl⟩
  simp only [cutPoint, interpAt, hfl, Int.toNat_natCast]
  rw [if_neg (Nat.not_lt.mpr h1), if_neg (Nat.not_lt.mpr h2), hAq]
  have hne : (n : ℚ) ≠ 0 := ne_of_gt hnq
  field_simp
  ring

lemma interpAt_bounds (d : List ℚ) (hd : List.Sorted (· ≤ ·) d) (x : ℚ) (j0 : ℕ)
    (hfl : Int.floor x = (j0 : ℤ)) (h1 : 1 ≤ j0) (h2 : j0 ≤ d.length - 1)
    (hlen : 2 ≤ d.length) :
    d.getD (j0 - 1) 0 ≤ interpAt d x ∧ interpAt d x ≤ d.getD j0 0 := by
  have hab : d.getD (j0 - 1) 0 ≤ d.getD j0 0 :=
    getD_mono_sorted hd (Nat.sub_le _ _) (by omega)
  have hxl : ((j0 : ℚ)) ≤ x := by
    have h := Int.floor_le x
    rw [hfl] at h
    exact_mod_cast h
  have hxu : x < (j0 : ℚ) + 1 := by
    have h := Int.lt_floor_add_one x
    rw [hfl] at h
    exact_mod_cast h
  have hf0 : 0 ≤ x - (j0 : ℚ) := by linarith
  have hf1 : x - (j0 : ℚ) ≤ 1 := by linarith
  constructor
  · simp only [interpAt, hfl, Int.toNat_natCast]
    nlinarith [mul_nonneg hf0 (sub_nonneg.mpr hab)]
  · simp only [interpAt, hfl, Int.toNat_natCast]
    nlinarith [mul_le_of_le_one_left (sub_nonneg.mpr hab) hf1]

lemma interpAt_mono (d : List ℚ) (hd : List.Sorted (· ≤ ·) d) (x1 x2 : ℚ) (j1 j2 : ℕ)
    (hx : x1 ≤ x2) (hfl1 : Int.floor x1 = (j1 : ℤ)) (hfl2 : Int.floor x2 = (j2 : ℤ))
    (h11 : 1 ≤ j1) (h12 : j1 ≤ d.length - 1) (h21 : 1 ≤ j2) (h22 : j2 ≤ d.length - 1)
    (hlen : 2 ≤ d.length) :
    interpAt d x1 ≤ interpAt d x2 := by
  have hj : j1 ≤ j2 := by
    have h := Int.floor_le_floor hx
    rw [hfl1, hfl2] at h
    exact_mod_cast h
  rcases eq_or_lt_of_le hj with heq | hlt
  · subst heq
    have hab : d.getD (j1 - 1) 0 ≤ d.getD j1 0 :=
      getD_mono_sorted hd (Nat.sub_le _ _) (by omega)
    have hd1 : x1 - (j1 : ℚ) ≤ x2 - (j1 : ℚ) := by linarith
    simp only [interpAt, hfl1, hfl2, Int.toNat_natCast]
    nlinarith [mul_le_mul_of_nonneg_right hd1 (sub_nonneg.mpr hab)]
  · calc interpAt d x1
        ≤ d.getD j1 0 := (interpAt_bounds d hd x1 j1 hfl1 h11 h12 hlen).2
      _ ≤ d.getD (j2 - 1) 0 := getD_mono_sorted hd (by omega) (by omega)
      _ ≤ interpAt d x2 := (interpAt_bounds d hd x2 j2 hfl2 h21 h22 hlen).1

lemma sortedOf_length (rt : List ℚ) : (sortedOf rt).length = rt.length :=
  List.length_insertionSort _ _

/-- C1 (amended): on a non-empty sample the percentiles are computed by the
linear-interpolation EXCLUSIVE method (the default of Python
`statistics.quantiles`) on the sorted sample — cut `i` of `n` is plain
linear interpolation at position `i·(len+1)/n` — and when the sample is too
small to interpolate, P25 and P50 fall back to the FIRST appended sample
and P75 to the LAST appended sample (not to the minimum or maximum of the
sample), while P90, P95 and P99 fall back to the maximum. -/
theorem c1_exclusive_method (rt : List ℚ) (hne : rt ≠ []) :
    (3 < rt.length →
      p25_response_time rt
          = interpAt (sortedOf rt) (((1 * (rt.length + 1) : ℕ) : ℚ) / (4 : ℚ))
      ∧ p75_response_time rt
          = interpAt (sortedOf rt) (((3 * (rt.length + 1) : ℕ) : ℚ) / (4 : ℚ)))
    ∧ (1 < rt.length →
      p50_response_time rt
          = interpAt (sortedOf rt) (((1 * (rt.length + 1) : ℕ) : ℚ) / (2 : ℚ)))
    ∧ (9 < rt.length →
      p90_response_time rt
          = interpAt (sortedOf rt) (((9 * (rt.length + 1) : ℕ) : ℚ) / (10 : ℚ)))
    ∧ (19 < rt.length →
      p95_response_time rt
          = interpAt (sortedOf rt) (((19 * (rt.length + 1) : ℕ) : ℚ) / (20 : ℚ)))
    ∧ (99 < rt.length →
      p99_response_time rt
          = interpAt (sortedOf rt) (((99 * (rt.length + 1) : ℕ) : ℚ) / (100 : ℚ)))
    ∧ (rt.length ≤ 3 →
      p25_response_time rt = rt.getD 0 0
      ∧ p75_response_time rt = rt.getLast?.getD 0)
    ∧ (rt.length ≤ 1 → p50_response_time rt = rt.getD 0 0)
    ∧ (rt.length ≤ 9 → p90_response_time rt = listMax rt)
    ∧ (rt.length ≤ 19 → p95_response_time rt = listMax rt)
    ∧ (rt.length ≤ 99 → p99_response_time rt = listMax rt) := by
  have hlen := sortedOf_length rt
  refine ⟨?_, ?_, ?_, ?_, ?_, ?_, ?_, ?_, ?_, ?_⟩
  · intro h
    constructor
    · have hq := (cutPoint_no_clamp (sortedOf rt) 4 1 (by norm_num)
        (by rw [hlen]; omega) (by rw [hlen]; omega)).1
      rw [p25_response_time, if_pos h, quantilesExc, hq, hlen]
      norm_cast
    · have hq := (cutPoint_no_clamp (sortedOf rt) 4 3 (by norm_num)
        (by rw [hlen]; omega) (by rw [hlen]; omega)).1
      rw [p75_response_time, if_pos h, quantilesExc, hq, hlen]
      norm_cast
  · intro h
    have hq := (cutPoint_no_clamp (sortedOf rt) 2 1 (by norm_num)
      (by rw [hlen]; omega) (by rw [hlen]; omega)).1
    rw [p50_response_time, if_pos h, quantilesExc, hq, hlen]
    norm_cast
  · intro h
    have hq := (cutPoint_no_clamp (sortedOf rt) 10 9 (by norm_num)
      (by rw [hlen]; omega) (by rw [hlen]; omega)).1
    rw [p90_response_time, if_pos h, quantilesExc, hq, hlen]
    norm_cast
  · intro h
    have hq := (cutPoint_no_clamp (sortedOf rt) 20 19 (by norm_num)
      (by rw [hlen]; omega) (by rw [hlen]; omega)).1
    rw [p95_response_time, if_pos h, quantilesExc, hq, hlen]
    norm_cast
  · intro h
    have hq := (cutPoint_no_clamp (sortedOf rt) 100 99 (by norm_num)
      (by rw [hlen]; omega) (by rw [hlen]; omega)).1
    rw [p99_response_time, if_pos h, quantilesExc, hq, hlen]
    norm_cast
  · intro h
    exact ⟨by rw [p25_response_time, if_neg (by omega)],
           by rw [p75_response_time, if_neg (by omega)]⟩
  · intro h
    rw [p50_response_time, if_neg (by omega)]
  · intro h
    rw [p90_response_time, if_neg (by omega)]
  · intro h
    rw [p95_response_time, if_neg (by omega)]
  · intro h
    rw [p99_response_time, if_neg (by omega)]

/-- C1 witness: the theorem applied to the four-sample run `[1,2,3,4]` —
P25 is interpolation at the exclusive position `(4+1)/4`, and P75 on the
three-sample run `[5,2,9]` is the last appended sample. -/
theorem c1_exclusive_method_witness :
    p25_response_time [1, 2, 3, 4]
        = interpAt (sortedOf [1, 2, 3, 4])
            (((1 * (([1, 2, 3, 4] : List ℚ).length + 1) : ℕ) : ℚ) / (4 : ℚ))
    ∧ p75_response_time [5, 2, 9] = ([5, 2, 9] : List ℚ).getLast?.getD 0 :=
  ⟨((c1_exclusive_method [1, 2, 3, 4] (by decide)).1 (by decide)).1,
   ((c1_exclusive_method [5, 2, 9] (by decide)).2.2.2.2.2.1 (by decide)).2⟩

lemma quant_spec_sorted (rt : List ℚ) (hs : List.Sorted (· ≤ ·) rt) (n i : ℕ)
    (hn : 0 < n) (h1 : 1 ≤ i * (rt.length + 1) / n)
    (h2 : i * (rt.length + 1) / n ≤ rt.length - 1) :
    quantilesExc rt n i = interpAt rt (((i * (rt.length + 1) : ℕ) : ℚ) / (n : ℚ))
    ∧ Int.floor (((i * (rt.length + 1) : ℕ) : ℚ) / (n : ℚ))
        = ((i * (rt.length + 1) / n : ℕ) : ℤ) := by
  have hse : sortedOf rt = rt := List.Sorted.insertionSort_eq hs
  have h := cutPoint_no_clamp rt n i hn h1 h2
  exact ⟨by rw [quantilesExc, hse]; exact h.1, h.2⟩

lemma quant_between (rt : List ℚ) (hs : List.Sorted (· ≤ ·) rt) (n i : ℕ)
    (hn : 0 < n) (h1 : 1 ≤ i * (rt.length + 1) / n)
    (h2 : i * (rt.length + 1) / n ≤ rt.length - 1) (hlen : 2 ≤ rt.length) :
    rt.getD 0 0 ≤ quantilesExc rt n i
    ∧ quantilesExc rt n i ≤ rt.getD (rt.length - 1) 0 := by
  obtain ⟨he, hf⟩ := quant_spec_sorted rt hs n i hn h1 h2
  have hb := interpAt_bounds rt hs _ _ hf h1 h2 hlen
  constructor
  · calc rt.getD 0 0
        ≤ rt.getD (i * (rt.length + 1) / n - 1) 0 :=
          getD_mono_sorted hs (Nat.zero_le _) (by omega)
      _ ≤ interpAt rt (((i * (rt.length + 1) : ℕ) : ℚ) / (n : ℚ)) := hb.1
      _ = quantilesExc rt n i := he.symm
  · calc quantilesExc rt n i
        = interpAt rt (((i * (rt.length + 1) : ℕ) : ℚ) / (n : ℚ)) := he
      _ ≤ rt.getD (i * (rt.length + 1) / n) 0 := hb.2
      _ ≤ rt.getD (rt.length - 1) 0 := getD_mono_sorted hs h2 (by omega)

lemma quant_mono (rt : List ℚ) (hs : List.Sorted (· ≤ ·) rt) (n1 i1 n2 i2 : ℕ)
    (hn1 : 0 < n1) (hn2 : 0 < n2)
    (h11 : 1 ≤ i1 * (rt.length + 1) / n1)
    (h12 : i1 * (rt.length + 1) / n1 ≤ rt.length - 1)
    (h21 : 1 ≤ i2 * (rt.length + 1) / n2)
    (h22 : i2 * (rt.length + 1) / n2 ≤ rt.length - 1)
    (hlen : 2 ≤ rt.length)
    (hx : ((i1 * (rt.length + 1) : ℕ) : ℚ) / (n1 : ℚ)
        ≤ ((i2 * (rt.length + 1) : ℕ) : ℚ) / (n2 : ℚ)) :
    quantilesExc rt n1 i1 ≤ quantilesExc rt n2 i2 := by
  obtain ⟨he1, hf1⟩ := quant_spec_sorted rt hs n1 i1 hn1 h11 h12
  obtain ⟨he2, hf2⟩ := quant_spec_sorted rt hs n2 i2 hn2 h21 h22
  rw [he1, he2]
  exact interpAt_mono rt hs _ _ _ _ hx hf1 hf2 h11 h12 h21 h22 hlen

/-- C2 (amended): when the successful response times are appended in
nondecreasing order (for arbitrary appending orders the chain can fail,
because the small-sample fallbacks of P25 and P75 read the unsorted list),
the percentile outputs are monotone:
min ≤ P25 ≤ P50 ≤ P75 ≤ P90 ≤ P95 ≤ P99 ≤ max. -/
theorem c2_sorted_chain (rt : List ℚ) (hne : rt ≠ [])
    (hs : List.Sorted (· ≤ ·) rt) :
    min_response_time rt ≤ p25_response_time rt
    ∧ p25_response_time rt ≤ p50_response_time rt
    ∧ p50_response_time rt ≤ p75_response_time rt
    ∧ p75_response_time rt ≤ p90_response_time rt
    ∧ p90_response_time rt ≤ p95_response_time rt
    ∧ p95_response_time rt ≤ p99_response_time rt
    ∧ p99_response_time rt ≤ max_response_time rt := by
  have hmin : min_response_time rt = rt.getD 0 0 := listMin_sorted rt hs hne
  have hlast : rt.getLast?.getD 0 = rt.getD (rt.length - 1) 0 := getLast?_getD_eq rt
  have hlmax : listMax rt = rt.getD (rt.length - 1) 0 := by
    rw [listMax_sorted rt hs hne, getLast?_getD_eq]
  have hmax : max_response_time rt = rt.getD (rt.length - 1) 0 := hlmax
  have hpos : 0 < rt.length := List.length_pos.mpr hne
  have hc : (0 : ℚ) ≤ (rt.length : ℚ) := Nat.cast_nonneg _
  refine ⟨?_, ?_, ?_, ?_, ?_, ?_, ?_⟩
  · rw [hmin, p25_response_time]
    split_ifs with h
    · exact (quant_between rt hs 4 1 (by norm_num) (by omega) (by omega) (by omega)).1
    · exact le_refl _
  · rw [p25_response_time, p50_response_time]
    split_ifs with h4 h2
    · apply quant_mono rt hs 4 1 2 1 (by norm_num) (by norm_num)
        (by omega) (by omega) (by omega) (by omega) (by omega)
      rw [div_le_div_iff (by norm_num) (by norm_num)]
      push_cast
      linarith
    · exfalso; omega
    · exact (quant_between rt hs 2 1 (by norm_num) (by omega) (by omega) (by omega)).1
    · exact le_refl _
  · rw [p50_response_time, p75_response_time]
    split_ifs with h2 h4
    · apply quant_mono rt hs 2 1 4 3 (by norm_num) (by norm_num)
        (by omega) (by omega) (by omega) (by omega) (by omega)
      rw [div_le_div_iff (by norm_num) (by norm_num)]
      push_cast
      linarith
    · rw [hlast]
      exact (quant_between rt hs 2 1 (by norm_num) (by omega) (by omega) (by omega)).2
    · exfalso; omega
    · rw [hlast]
      exact getD_mono_sorted hs (Nat.zero_le _) (by omega)
  · rw [p75_response_time, p90_response_time]
    split_ifs with h4 h9
    · apply quant_mono rt hs 4 3 10 9 (by norm_num) (by norm_num)
        (by omega) (by omega) (by omega) (by omega) (by omega)
      rw [div_le_div_iff (by norm_num) (by norm_num)]
      push_cast
      linarith
    · rw [hlmax]
      exact (quant_between rt hs 4 3 (by norm_num) (by omega) (by omega) (by omega)).2
    · exfalso; omega
    · rw [hlast, hlmax]
  · rw [p90_response_time, p95_response_time]
    split_ifs with h9 h19
    · apply quant_mono rt hs 10 9 20 19 (by norm_num) (by norm_num)
        (by omega) (by omega) (by omega) (by omega) (by omega)
      rw [div_le_div_iff (by norm_num) (by norm_num)]
      push_cast
      linarith
    · rw [hlmax]
      exact (quant_between rt hs 10 9 (by norm_num) (by omega) (by omega) (by omega)).2
    · exfalso; omega
    · exact le_refl _
  · rw [p95_response_time, p99_response_time]
    split_ifs with h19 h99
    · apply quant_mono rt hs 20 19 100 99 (by norm_num) (by norm_num)
        (by omega) (by omega) (by omega) (by omega) (by omega)
      rw [div_le_div_iff (by norm_num) (by norm_num)]
      push_cast
      linarith
    · rw [hlmax]
      exact (quant_between rt hs 20 19 (by norm_num) (by omega) (by omega) (by omega)).2
    · exfalso; omega
    · exact le_refl _
  · rw [p99_response_time, hmax]
    split_ifs with h99
    · exact (quant_between rt hs 100 99 (by norm_num) (by omega) (by omega) (by omega)).2
    · exact le_of_eq hlmax

/-- C2 witness: the monotone chain at the sorted two-sample run `[1, 2]`. -/
theorem c2_sorted_chain_witness :
    min_response_time [1, 2] ≤ p25_response_time [1, 2]
    ∧ p25_response_time [1, 2] ≤ p50_response_time [1, 2]
    ∧ p50_response_time [1, 2] ≤ p75_response_time [1, 2]
    ∧ p75_response_time [1, 2] ≤ p90_response_time [1, 2]
    ∧ p90_response_time [1, 2] ≤ p95_response_time [1, 2]
    ∧ p95_response_time [1, 2] ≤ p99_response_time [1, 2]
    ∧ p99_response_time [1, 2] ≤ max_response_time [1, 2] :=
  c2_sorted_chain [1, 2] (by decide) (by decide)

/-- Exact mean of a sample (`statistics.mean`). -/
def meanQ (l : List ℚ) : ℚ := l.sum / (l.length : ℚ)

/-- Sum of squared deviations from the mean. -/
def sqDevSum (l : List ℚ) : ℚ := (l.map (fun x => (x - meanQ l) ^ 2)).sum

/-- The variance underlying Python `statistics.stdev`: Bessel-corrected
SAMPLE variance, denominator `n - 1`. -/
def sampleVariance (l : List ℚ) : ℚ := sqDevSum l / ((l.length : ℚ) - 1)

/-- The variance underlying Python `statistics.pstdev`: population
variance, denominator `n`. -/
def popVariance (l : List ℚ) : ℚ := sqDevSum l / (l.length : ℚ)

/-- `std_response_time` (core.py line 260):
`statistics.stdev(response_times) if len(response_times) > 1 else 0` —
the square root of the SAMPLE variance. -/
noncomputable def std_response_time (l : List ℚ) : ℝ :=
  if 1 < l.length then Real.sqrt ((sampleVariance l : ℚ) : ℝ) else 0

/-- Modelled from the spec: the population standard deviation the spec
names (`statistics.pstdev`), for comparison with what the code computes. -/
noncomputable def pstdev (l : List ℚ) : ℝ :=
  Real.sqrt ((popVariance l : ℚ) : ℝ)

lemma sqDev_expand (l : List ℚ) (m : ℚ) :
    (l.map (fun x => (x - m) ^ 2)).sum
      = (l.map (fun x => x ^ 2)).sum - 2 * m * l.sum + (l.length : ℚ) * m ^ 2 := by
  induction l with
  | nil => simp
  | cons a t ih =>
      simp only [List.map_cons, List.sum_cons, ih, List.length_cons]
      push_cast
      ring

lemma sqDevSum_nonneg (l : List ℚ) : 0 ≤ sqDevSum l := by
  apply List.sum_nonneg
  intro x hx
  simp only [List.mem_map] at hx
  obtain ⟨y, _, rfl⟩ := hx
  positivity

/-- C9 (amended): `std_response_time` is the SAMPLE (Bessel-corrected)
standard deviation of the successful response times, not the population
one: it is 0 for a single sample, and for `n ≥ 2` samples it is the
nonnegative real whose square is the sample variance, which satisfies the
computational identity `var·(n-1)·n = n·Σx² − (Σx)²`. -/
theorem c9_sample_stdev (rt : List ℚ) :
    (rt.length = 1 → std_response_time rt = 0)
    ∧ (2 ≤ rt.length →
        0 ≤ std_response_time rt
        ∧ (std_response_time rt) ^ 2 = ((sampleVariance rt : ℚ) : ℝ)
        ∧ sampleVariance rt * ((rt.length : ℚ) - 1) * (rt.length : ℚ)
            = (rt.length : ℚ) * (rt.map (fun x => x ^ 2)).sum - rt.sum ^ 2) := by
  constructor
  · intro h
    simp only [std_response_time, if_neg (by omega : ¬ 1 < rt.length)]
  · intro h
    have hc : (2 : ℚ) ≤ (rt.length : ℚ) := by exact_mod_cast h
    have hn0 : (rt.length : ℚ) ≠ 0 := by linarith
    have hn1 : ((rt.length : ℚ) - 1) ≠ 0 := by
      intro hz
      rw [sub_eq_zero] at hz
      linarith [hz.symm ▸ hc]
    have hv : (0 : ℚ) ≤ sampleVariance rt :=
      div_nonneg (sqDevSum_nonneg rt) (by linarith)
    refine ⟨?_, ?_, ?_⟩
    · simp only [std_response_time, if_pos (by omega : 1 < rt.length)]
      exact Real.sqrt_nonneg _
    · simp only [std_response_time, if_pos (by omega : 1 < rt.length)]
      exact Real.sq_sqrt (by exact_mod_cast hv)
    · rw [sampleVariance, div_mul_cancel₀ _ hn1, sqDevSum, sqDev_expand, meanQ]
      field_simp
      ring

/-- C9 witness: the theorem at the one-sample run `[3]` (stdev 0) and the
two-sample run `[0, 2]` (stdev² is the sample variance). -/
theorem c9_sample_stdev_witness :
    std_response_time [(3 : ℚ)] = 0
    ∧ (std_response_time [0, 2]) ^ 2 = ((sampleVariance [0, 2] : ℚ) : ℝ) :=
  ⟨(c9_sample_stdev [3]).1 rfl,
   ((c9_sample_stdev [0, 2]).2 (by norm_num)).2.1⟩

/-- C9 counterexample: on the sample `[0, 2]` the code reports
`stdev = √2` (sample variance 2) while the population standard deviation
is 1 (population variance 1); the two differ. -/
theorem c9_counterexample : std_response_time [0, 2] ≠ pstdev [0, 2] := by
  have h1 : sampleVariance [0, 2] = 2 := by
    norm_num [sampleVariance, sqDevSum, meanQ]
  have h2 : popVariance [0, 2] = 1 := by
    norm_num [popVariance, sqDevSum, meanQ]
  simp only [std_response_time, pstdev, h1, h2, if_pos (by norm_num : 1 < ([0, 2] : List ℚ).length)]
  intro h
  have hone : Real.sqrt ((1 : ℚ) : ℝ) = 1 := by
    norm_num
  rw [hone] at h
  have hsq := Real.sq_sqrt (by norm_num : (0 : ℝ) ≤ ((2 : ℚ) : ℝ))
  rw [h] at hsq
  norm_num at hsq
